import Mathlib

/-!
Shallow embedding of the WFS tile scraper (`src/index.js`, final version of the
script: `generateTiles`, `roundCoord`, `splitBbox`, `fetchWithRetry`,
`fetchAndConvertTile`, the batched merge loop and the dedup query).
JavaScript numbers are modelled as exact rationals; `Number(v.toFixed(6))` is
modelled as rounding to the nearest multiple of `10⁻⁶`.
-/

/-- A bounding box, stored in the source's array order `[ymin, xmin, ymax, xmax]`. -/
structure Bbox where
  ymin : ℚ
  xmin : ℚ
  ymax : ℚ
  xmax : ℚ
deriving Repr, DecidableEq, Inhabited

/-- The `belgiumExtent`-style input record `{xmin, ymin, xmax, ymax}`. -/
structure Extent where
  xmin : ℚ
  ymin : ℚ
  xmax : ℚ
  ymax : ℚ
deriving Repr, DecidableEq, Inhabited

/-- `roundCoord(value, decimals = 6)`: `Number(value.toFixed(decimals))`,
modelled as rounding to the nearest multiple of `10^(-decimals)`. -/
def roundCoord (value : ℚ) (decimals : ℕ := 6) : ℚ :=
  (round (value * 10 ^ decimals) : ℚ) / 10 ^ decimals

/-- The values taken by the loop variable of `for (let v = lo; v < hi; v += step)`.
`fuel` is a structural bound on the iteration count; `axisVals` supplies a
provably sufficient amount so that the loop semantics is exact. -/
def loopVals (hi step : ℚ) : ℕ → ℚ → List ℚ
  | 0, _ => []
  | fuel + 1, v => if v < hi then v :: loopVals hi step fuel (v + step) else []

/-- All values taken by the loop variable starting at `lo`. -/
def axisVals (lo hi step : ℚ) : List ℚ :=
  loopVals hi step ((⌈(hi - lo) / step⌉).toNat + 1) lo

/-- `generateTiles({xmin, ymin, xmax, ymax}, step = 0.05)`: the y-outer /
x-inner double loop pushing `[roundCoord(y), roundCoord(x), roundCoord(y+step),
roundCoord(x+step)]`. -/
def generateTiles (e : Extent) (step : ℚ := 5 / 100) : List Bbox :=
  (axisVals e.ymin e.ymax step).flatMap fun y =>
    (axisVals e.xmin e.xmax step).map fun x =>
      { ymin := roundCoord y
        xmin := roundCoord x
        ymax := roundCoord (y + step)
        xmax := roundCoord (x + step) }

/-- `splitBbox(bbox)`: the four quadrants SW, SE, NW, NE computed from the axis
midpoints, every coordinate passed through `roundCoord`. -/
def splitBbox (b : Bbox) : List Bbox :=
  let ymid := (b.ymin + b.ymax) / 2
  let xmid := (b.xmin + b.xmax) / 2
  [ { ymin := roundCoord b.ymin, xmin := roundCoord b.xmin
      ymax := roundCoord ymid, xmax := roundCoord xmid }
  , { ymin := roundCoord b.ymin, xmin := roundCoord xmid
      ymax := roundCoord ymid, xmax := roundCoord b.xmax }
  , { ymin := roundCoord ymid, xmin := roundCoord b.xmin
      ymax := roundCoord b.ymax, xmax := roundCoord xmid }
  , { ymin := roundCoord ymid, xmin := roundCoord xmid
      ymax := roundCoord b.ymax, xmax := roundCoord b.xmax } ]

/-- Helper for `countMatches`: scans `s` left to right; a positive `skip`
records how many characters of an already-counted match are left to pass over
(the JS global regex resumes after the end of each match). -/
def countMatchesGo (pat : List Char) : List Char → ℕ → ℕ
  | [], _ => 0
  | _ :: rest, skip + 1 => countMatchesGo pat rest skip
  | s@(_ :: rest), 0 =>
      if pat.isPrefixOf s then 1 + countMatchesGo pat rest (pat.length - 1)
      else countMatchesGo pat rest 0

/-- Number of non-overlapping, leftmost occurrences of `pat` in `s`:
`(s.match(/pat/g) || []).length`. -/
def countMatches (pat s : List Char) : ℕ :=
  countMatchesGo pat s 0

/-- `(xml.match(/<CL:Cadastral_parcel/g) || []).length`. -/
def countFeatures (xml : String) : ℕ :=
  countMatches "<CL:Cadastral_parcel".toList xml.toList

/-- The fields of a `fetch` `Response` the script inspects: `ok`, `status`,
and the payload text returned by `res.text()`. -/
structure Response where
  ok : Bool
  status : ℕ
  body : String
deriving Repr, DecidableEq, Inhabited

/-- One attempt of the retry loop body: a thrown network error stays an error,
and a response with `!response.ok` raises `HTTP <status>`. -/
def attemptOutcome (o : Except String Response) : Except String Response :=
  match o with
  | .ok r => if r.ok then .ok r else .error ("HTTP " ++ toString r.status)
  | .error e => .error e

/-- Does an attempt fail (throw or report a non-ok status)? -/
def attemptFails (o : Except String Response) : Bool :=
  !(attemptOutcome o).isOk

deriving instance DecidableEq for Except

/-- Observable behaviour of one `fetchWithRetry` call: number of attempts made,
the waits performed between attempts, and the final outcome.  `Except.ok none`
models the loop falling through without returning (the JS `undefined`). -/
structure RetryTrace where
  attempts : ℕ
  delays : List ℚ
  result : Except String (Option Response)
deriving Repr, DecidableEq

/-- The loop `for (let attempt = 0; attempt < maxRetries; attempt++)` of
`fetchWithRetry`.  `attemptFn n` is the network outcome of attempt `n`; `fuel`
is a structural iteration bound, instantiated so that it never cuts the loop
short. -/
def retryGo (attemptFn : ℕ → Except String Response) (maxRetries : ℤ)
    (baseDelay : ℚ) : ℕ → ℕ → RetryTrace
  | _, 0 => ⟨0, [], .ok none⟩
  | attempt, fuel + 1 =>
    if (attempt : ℤ) < maxRetries then
      match attemptOutcome (attemptFn attempt) with
      | .ok r => ⟨1, [], .ok (some r)⟩
      | .error e =>
        if (attempt : ℤ) = maxRetries - 1 then ⟨1, [], .error e⟩
        else
          let t := retryGo attemptFn maxRetries baseDelay (attempt + 1) fuel
          ⟨t.attempts + 1, baseDelay * 2 ^ attempt :: t.delays, t.result⟩
    else ⟨0, [], .ok none⟩

/-- `fetchWithRetry(url, options, maxRetries = 3, baseDelay = 1000)`.
`attemptFn` stands for `fetch(url, options)` at each attempt. -/
def fetchWithRetry (attemptFn : ℕ → Except String Response) (maxRetries : ℤ := 3)
    (baseDelay : ℚ := 1000) : RetryTrace :=
  retryGo attemptFn maxRetries baseDelay 0 maxRetries.toNat

/-- Hexadecimal digit, uppercase (as produced by `URLSearchParams`). -/
def hexDigit (n : ℕ) : Char :=
  "0123456789ABCDEF".toList.getD n 'X'

/-- Percent-encoding of one character under the
`application/x-www-form-urlencoded` serializer used by `URLSearchParams`:
ASCII alphanumerics and `*-._` pass through, space becomes `+`, everything
else (ASCII) becomes `%XX`. -/
def urlEncodeChar (c : Char) : String :=
  if c.isAlphanum || c = '*' || c = '-' || c = '.' || c = '_' then String.singleton c
  else if c = ' ' then "+"
  else String.mk ['%', hexDigit (c.toNat / 16 % 16), hexDigit (c.toNat % 16)]

/-- `URLSearchParams` encoding of one value string. -/
def urlEncode (s : String) : String :=
  String.join (s.toList.map urlEncodeChar)

/-- Strips trailing `'0'` characters from a digit list. -/
def dropTrailingZeros (l : List Char) : List Char :=
  (l.reverse.dropWhile (· = '0')).reverse

/-- JavaScript-style decimal rendering of a number, exact for values that are
integer multiples of `10⁻⁶` (every coordinate the script builds is, because it
passes them through `roundCoord`); other rationals are truncated to 6 decimal
places. `50.8` renders as `"50.8"`, `4` as `"4"`. -/
def ratStr (q : ℚ) : String :=
  let sign := if q < 0 then "-" else ""
  let aq := |q|
  let ip := (⌊aq⌋).toNat
  let frac6 := (⌊(aq - ip) * 10 ^ 6⌋).toNat
  let digits := toString frac6
  let padded := String.mk (List.replicate (6 - digits.length) '0') ++ digits
  let frac := dropTrailingZeros padded.toList
  sign ++ toString ip ++ (if frac = [] then "" else "." ++ String.mk frac)

/-- The WFS endpoint `BASE_URL` of `fetchAndConvertTile`. -/
def BASE_URL : String :=
  "http://ccff02.minfin.fgov.be/geoservices/arcgis/services/WMS/Cadastral_LayersWFS/MapServer/WFSServer"

/-- `bbox.join(',') + ',EPSG:4326'`. -/
def bboxParam (b : Bbox) : String :=
  ratStr b.ymin ++ "," ++ ratStr b.xmin ++ "," ++ ratStr b.ymax ++ "," ++ ratStr b.xmax
    ++ ",EPSG:4326"

/-- `` `${BASE_URL}?${new URLSearchParams(params)}` `` for the tile request of
`fetchAndConvertTile` (insertion order of the `params` object, `count=1000`). -/
def tileUrl (b : Bbox) : String :=
  BASE_URL ++ "?" ++
    "service=" ++ urlEncode "WFS" ++
    "&version=" ++ urlEncode "2.0.0" ++
    "&request=" ++ urlEncode "GetFeature" ++
    "&typename=" ++ urlEncode "CL:Cadastral_parcel" ++
    "&outputFormat=" ++ urlEncode "GML3" ++
    "&srsName=" ++ urlEncode "EPSG:4326" ++
    "&bbox=" ++ urlEncode (bboxParam b) ++
    "&count=" ++ urlEncode "1000"

/-- The `console.error` line of the tile-level catch block:
`` `❌ Tile ${tileId} failed: ${err.message} for ${url}` ``. -/
def failLog (tileId msg url : String) : String :=
  "❌ Tile " ++ tileId ++ " failed: " ++ msg ++ " for " ++ url

/-- External world of one run of `fetchAndConvertTile`: the persisted-artifact
check (`fs.existsSync`), the network (`fetch`, per URL and attempt number), the
raw-payload write (`fs.writeFileSync`), the `ogr2ogr` conversion, and the
intermediate cleanup (`fs.unlinkSync`). -/
structure TileEnv where
  gpkgExists : String → Bool
  fetchAttempt : String → ℕ → Except String Response
  writeFile : String → String → Except String Unit
  convert : String → Except String Unit
  unlink : String → Except String Unit

/-- Observable behaviour of one `fetchAndConvertTile` call: the returned list
of artifact paths, the depths of all tiles on which a network request was
issued, how many of those requests belonged to tiles that did not subdivide
(leaf fetches), and the `console.error` failure lines. -/
structure TileRun where
  artifacts : List String
  fetchedDepths : List ℕ
  leafFetches : ℕ
  errorLogs : List String
deriving Repr, DecidableEq

/-- The non-splitting tail of `fetchAndConvertTile`: `fs.writeFileSync(gmlPath,
xml)`, the `ogr2ogr` conversion to `gpkgPath`, `fs.unlinkSync(gmlPath)`, and
`return [gpkgPath]`; any raised error is caught, logged, and turned into `[]`. -/
def convertPhase (env : TileEnv) (tileId url gmlPath gpkgPath xml : String)
    (depth : ℕ) : TileRun :=
  match env.writeFile gmlPath xml with
  | .error e => ⟨[], [depth], 1, [failLog tileId e url]⟩
  | .ok _ =>
    match env.convert gpkgPath with
    | .error e => ⟨[], [depth], 1, [failLog tileId e url]⟩
    | .ok _ =>
      match env.unlink gmlPath with
      | .error e => ⟨[], [depth], 1, [failLog tileId e url]⟩
      | .ok _ => ⟨[gpkgPath], [depth], 1, []⟩

/-- `fetchAndConvertTile(rootIndex, totalLength, bbox, tileId, depth)` with
`maxDepth = 5`: existence short-circuit, `fetchWithRetry`, feature counting,
the `featureCount >= 400 && depth < maxDepth` split with recursion on the four
quadrants at `depth + 1` (sub-tile `i` named `` `${tileId}_${i}` ``), otherwise
conversion; every failure is absorbed into an empty result.  `fuel` is a
structural recursion bound; `fetchAndConvertTile` instantiates it with 6, which
the depth guard makes sufficient for every `depth`. -/
def runTile (env : TileEnv) : ℕ → Bbox → String → ℕ → TileRun
  | fuel, bbox, tileId, depth =>
    let url := tileUrl bbox
    let gmlPath := "tiles/tile_" ++ tileId ++ ".gml"
    let gpkgPath := "tiles/tile_" ++ tileId ++ ".gpkg"
    if env.gpkgExists gpkgPath then ⟨[gpkgPath], [], 0, []⟩
    else
      match (fetchWithRetry (env.fetchAttempt url) 3 1000).result with
      | .error e => ⟨[], [depth], 1, [failLog tileId e url]⟩
      | .ok none => ⟨[], [depth], 1, [failLog tileId "res is undefined" url]⟩
      | .ok (some res) =>
        let featureCount := countFeatures res.body
        if 400 ≤ featureCount ∧ depth < 5 then
          match fuel with
          | 0 => ⟨[], [depth], 0, []⟩
          | fuel' + 1 =>
            let runs := (splitBbox bbox).enum.map fun p =>
              runTile env fuel' p.2 (tileId ++ "_" ++ toString p.1) (depth + 1)
            ⟨(runs.map TileRun.artifacts).flatten,
             depth :: (runs.map TileRun.fetchedDepths).flatten,
             (runs.map TileRun.leafFetches).sum,
             (runs.map TileRun.errorLogs).flatten⟩
        else convertPhase env tileId url gmlPath gpkgPath res.body depth

/-- The artifact-path list returned by `fetchAndConvertTile`; fuel 6 is enough
for every starting depth because recursion is guarded by `depth < 5`. -/
def fetchAndConvertTile (env : TileEnv) (bbox : Bbox) (tileId : String)
    (depth : ℕ := 0) : List String :=
  (runTile env 6 bbox tileId depth).artifacts

/-- Helper for `chunksOf`: collects the current slice in `acc` (reversed),
`room` counts how many elements the slice still accepts. -/
def chunksGo (n : ℕ) : List α → List α → ℕ → List (List α)
  | [], acc, _ => if acc.isEmpty then [] else [acc.reverse]
  | a :: rest, acc, room + 1 => chunksGo n rest (a :: acc) room
  | a :: rest, acc, 0 => acc.reverse :: chunksGo n rest [a] (n - 1)

/-- The batches `validGpkgs.slice(i, i + n)` for `i = 0, n, 2n, …`. -/
def chunksOf (n : ℕ) (l : List α) : List (List α) :=
  chunksGo n l [] n

/-- The merge batch loop of `main`: for each batch build a VRT and run
`ogr2ogr` (create mode for the first batch, `-append` afterwards).  `fails b`
tells whether the external `ogr2ogr` invocation for 1-based batch number `b`
raises.  Carries the content of the dataset at `finalGpkg` (`none` = no file):
a successful batch appends its files; a failure re-raises after removing the
batch VRT, leaving the dataset untouched.  Returns the loop outcome and the
final content of the output path. -/
def mergeBatchesGo (fails : ℕ → Bool) :
    List (List String) → ℕ → Option (List String) →
      Except String Unit × Option (List String)
  | [], _, content => (.ok (), content)
  | batch :: rest, batchNum, content =>
    if fails batchNum then
      (.error ("Error processing batch " ++ toString batchNum), content)
    else
      mergeBatchesGo fails rest (batchNum + 1) (some (content.getD [] ++ batch))

/-- The whole merge phase over the validated artifact list: `finalGpkg` is
removed if present (content starts as `none`), then the files are processed in
batches of `batchSize = 1000`. -/
def runMergePhase (fails : ℕ → Bool) (validGpkgs : List String) :
    Except String Unit × Option (List String) :=
  mergeBatchesGo fails (chunksOf 1000 validGpkgs) 1 none

/-- A row of the merged `parcels` layer: its SQLite `ROWID`, its `CaPaKey`
feature key, and the rest of the record. -/
structure Record where
  rowid : ℕ
  capakey : String
  payload : String
deriving Repr, DecidableEq

/-- `SELECT MIN(ROWID) FROM parcels GROUP BY CaPaKey`: one minimal `ROWID` per
distinct `CaPaKey` (groups listed in first-occurrence order). -/
def groupMinRowids (t : List Record) : List ℕ :=
  ((t.map Record.capakey).dedup).filterMap fun k =>
    ((t.filter fun r => r.capakey = k).map Record.rowid).min?

/-- The dedup query `SELECT * FROM parcels WHERE ROWID IN (SELECT MIN(ROWID)
FROM parcels GROUP BY CaPaKey)` run by `ogr2ogr` into `belgium_deduped.gpkg`. -/
def dedupTable (t : List Record) : List Record :=
  t.filter fun r => r.rowid ∈ groupMinRowids t

/-- Membership of a point in a (closed) tile box. -/
def inTile (b : Bbox) (x y : ℚ) : Prop :=
  b.xmin ≤ x ∧ x ≤ b.xmax ∧ b.ymin ≤ y ∧ y ≤ b.ymax

instance (b : Bbox) (x y : ℚ) : Decidable (inTile b x y) := by
  unfold inTile; infer_instance

/-- Membership of a point in the (closed) extent rectangle. -/
def inExtent (e : Extent) (x y : ℚ) : Prop :=
  e.xmin ≤ x ∧ x ≤ e.xmax ∧ e.ymin ≤ y ∧ y ≤ e.ymax

instance (e : Extent) (x y : ℚ) : Decidable (inExtent e x y) := by
  unfold inExtent; infer_instance

/-- A value is exactly representable at the script's rounding precision
(an integer multiple of `10⁻⁶`), so that `roundCoord` leaves it unchanged. -/
def gridAligned (q : ℚ) : Prop :=
  ∃ k : ℤ, q = (k : ℚ) / 10 ^ 6

/-- Content of the output dataset after appending a list of batches in order
(`none` = the file does not exist yet; appending to a missing file creates
it). -/
def appendMergedContent (content : Option (List String))
    (batches : List (List String)) : Option (List String) :=
  batches.foldl (fun acc batch => some (acc.getD [] ++ batch)) content

example : countFeatures "<CL:Cadastral_parcel a/><CL:Cadastral_parcel b/>" = 2 := by decide

example : countFeatures "no features here" = 0 := by decide

example : roundCoord (6 / 10 ^ 7) = 1 / 10 ^ 6 := by
  norm_num [roundCoord, round_eq]

example : axisVals 0 1 2 = [0] := by
  have h : (⌈((1:ℚ) - 0) / 2⌉).toNat = 1 := by
    rw [show (⌈((1:ℚ) - 0) / 2⌉) = 1 from by rw [Int.ceil_eq_iff] ; norm_num]
    rfl
  rw [axisVals, h]
  norm_num [loopVals]

example : splitBbox { ymin := 0, xmin := 0, ymax := 1, xmax := 1 } =
    [ { ymin := 0, xmin := 0, ymax := 1/2, xmax := 1/2 }
    , { ymin := 0, xmin := 1/2, ymax := 1/2, xmax := 1 }
    , { ymin := 1/2, xmin := 0, ymax := 1, xmax := 1/2 }
    , { ymin := 1/2, xmin := 1/2, ymax := 1, xmax := 1 } ] := by
  norm_num [splitBbox, roundCoord, round_eq]

example :
    (fetchWithRetry (fun _ => .error "boom") 3 1000).result = .error "boom" := by decide

example :
    (fetchWithRetry (fun _ => .error "boom") 3 1000).attempts = 3 := by decide

example :
    (fetchWithRetry (fun _ => .ok ⟨true, 200, "hi"⟩) 3 1000).result =
      .ok (some ⟨true, 200, "hi"⟩) := by decide

example : chunksOf 2 [1, 2, 3, 4, 5] = [[1, 2], [3, 4], [5]] := by decide

example : chunksOf 3 ([] : List ℕ) = [] := by decide

example :
    dedupTable [⟨1, "A", "x"⟩, ⟨2, "A", "y"⟩, ⟨3, "B", "z"⟩] =
      [⟨1, "A", "x"⟩, ⟨3, "B", "z"⟩] := by decide

theorem attemptFails_iff (o : Except String Response) :
    attemptFails o = true ↔ ∃ e, attemptOutcome o = .error e := by
  unfold attemptFails
  cases h : attemptOutcome o <;> simp [Except.isOk, Except.toBool]

theorem retryGo_zero (f : ℕ → Except String Response) (m : ℤ) (b : ℚ) (a : ℕ) :
    retryGo f m b a 0 = ⟨0, [], .ok none⟩ := rfl

theorem retryGo_succ (f : ℕ → Except String Response) (m : ℤ) (b : ℚ) (a fuel : ℕ) :
    retryGo f m b a (fuel + 1) =
      if (a : ℤ) < m then
        match attemptOutcome (f a) with
        | .ok r => ⟨1, [], .ok (some r)⟩
        | .error e =>
          if (a : ℤ) = m - 1 then ⟨1, [], .error e⟩
          else
            let t := retryGo f m b (a + 1) fuel
            ⟨t.attempts + 1, b * 2 ^ a :: t.delays, t.result⟩
      else ⟨0, [], .ok none⟩ := rfl

/-- **C10.** `fetchWithRetry` with `maxRetries ≤ 0` never runs the loop body:
no attempt is made, no delay is waited, and the call resolves to `undefined`
(modelled `Except.ok none`) — neither a response nor an error. -/
theorem claim_C10_no_attempt (f : ℕ → Except String Response) (m : ℤ) (b : ℚ)
    (h : m ≤ 0) : fetchWithRetry f m b = ⟨0, [], .ok none⟩ := by
  unfold fetchWithRetry
  rw [Int.toNat_of_nonpos h, retryGo_zero]

/-- Witness for C10 at `maxRetries = -1`. -/
theorem claim_C10_no_attempt_witness :
    (-1 : ℤ) ≤ 0 ∧
      fetchWithRetry (fun _ => .error "boom") (-1) 1000 = ⟨0, [], .ok none⟩ :=
  ⟨by decide, claim_C10_no_attempt (fun _ => .error "boom") (-1) 1000 (by decide)⟩

theorem retryGo_success_step (f : ℕ → Except String Response) (m : ℤ) (b : ℚ)
    (a fuel : ℕ) (r : Response) (he : attemptOutcome (f a) = .ok r)
    (h1 : (a : ℤ) < m) :
    retryGo f m b a (fuel + 1) = ⟨1, [], .ok (some r)⟩ := by
  rw [retryGo_succ, if_pos h1, he]

theorem retryGo_last_step (f : ℕ → Except String Response) (m : ℤ) (b : ℚ)
    (a fuel : ℕ) (e : String) (he : attemptOutcome (f a) = .error e)
    (h1 : (a : ℤ) < m) (h2 : (a : ℤ) = m - 1) :
    retryGo f m b a (fuel + 1) = ⟨1, [], .error e⟩ := by
  rw [retryGo_succ, if_pos h1, he]
  simp [h2]

theorem retryGo_error_step (f : ℕ → Except String Response) (m : ℤ) (b : ℚ)
    (a fuel : ℕ) (e : String) (he : attemptOutcome (f a) = .error e)
    (h1 : (a : ℤ) < m) (h2 : ¬((a : ℤ) = m - 1)) :
    retryGo f m b a (fuel + 1) =
      ⟨(retryGo f m b (a + 1) fuel).attempts + 1,
        b * 2 ^ a :: (retryGo f m b (a + 1) fuel).delays,
        (retryGo f m b (a + 1) fuel).result⟩ := by
  rw [retryGo_succ, if_pos h1, he]
  simp [h2]

theorem retryGo_delays_getD (f : ℕ → Except String Response) (m : ℤ) (b : ℚ) :
    ∀ (fuel a i : ℕ), i < (retryGo f m b a fuel).delays.length →
      (retryGo f m b a fuel).delays.getD i 0 = b * 2 ^ (a + i) := by
  intro fuel
  induction fuel with
  | zero => intro a i h; simp [retryGo_zero] at h
  | succ fuel ih =>
    intro a i h
    by_cases hc : (a : ℤ) < m
    · cases ho : attemptOutcome (f a) with
      | ok r =>
        rw [retryGo_success_step f m b a fuel r ho hc] at h
        simp at h
      | error e =>
        by_cases hl : (a : ℤ) = m - 1
        · rw [retryGo_last_step f m b a fuel e ho hc hl] at h
          simp at h
        · rw [retryGo_error_step f m b a fuel e ho hc hl] at h ⊢
          cases i with
          | zero => simp
          | succ i =>
            simp only [List.getD_cons_succ, List.length_cons, Nat.succ_lt_succ_iff] at h ⊢
            rw [ih (a + 1) i h]
            ring_nf
    · rw [retryGo_succ, if_neg hc] at h
      simp at h

/-- **C4.** `fetchWithRetry` with `maxRetries = 3`, `baseDelay = 1000`:
a call whose first two attempts fail and whose third succeeds makes exactly 3
attempts, waits 1000 and 2000 between them, and returns the successful
response; a call all three of whose attempts fail (a non-ok HTTP status
counting as a failure) makes exactly 3 attempts, waits 1000 and 2000, and
raises the third attempt's error; in general the wait inserted after failed
attempt `n` (0-based) is `baseDelay * 2 ^ n`. -/
theorem claim_C4_retry_schedule (f : ℕ → Except String Response) :
    (∀ r : Response, attemptFails (f 0) = true → attemptFails (f 1) = true →
        f 2 = .ok r → r.ok = true →
        fetchWithRetry f 3 1000 = ⟨3, [1000, 2000], .ok (some r)⟩) ∧
    (∀ e : String, attemptFails (f 0) = true → attemptFails (f 1) = true →
        attemptOutcome (f 2) = .error e →
        fetchWithRetry f 3 1000 = ⟨3, [1000, 2000], .error e⟩) ∧
    (∀ (m : ℤ) (b : ℚ) (n : ℕ), n < (fetchWithRetry f m b).delays.length →
        (fetchWithRetry f m b).delays.getD n 0 = b * 2 ^ n) := by
  have key : ∀ out2 : RetryTrace, attemptFails (f 0) = true → attemptFails (f 1) = true →
      retryGo f 3 1000 2 1 = out2 →
      fetchWithRetry f 3 1000 =
        ⟨out2.attempts + 2, 1000 * 2 ^ 0 :: 1000 * 2 ^ 1 :: out2.delays, out2.result⟩ := by
    intro out2 h0 h1 h2
    obtain ⟨e0, he0⟩ := (attemptFails_iff _).mp h0
    obtain ⟨e1, he1⟩ := (attemptFails_iff _).mp h1
    show retryGo f 3 1000 0 ((3 : ℤ)).toNat = _
    rw [show ((3 : ℤ)).toNat = 2 + 1 from rfl,
      retryGo_error_step f 3 1000 0 2 e0 he0 (by decide) (by decide),
      show (2 : ℕ) = 1 + 1 from rfl,
      retryGo_error_step f 3 1000 1 1 e1 he1 (by decide) (by decide), h2]
  refine ⟨?_, ?_, ?_⟩
  · intro r h0 h1 h2 hok
    have hstep : retryGo f 3 1000 2 1 = ⟨1, [], .ok (some r)⟩ := by
      refine retryGo_success_step f 3 1000 2 0 r ?_ (by decide)
      simp [attemptOutcome, h2, hok]
    rw [key _ h0 h1 hstep]
    norm_num
  · intro e h0 h1 h2
    have hstep : retryGo f 3 1000 2 1 = ⟨1, [], .error e⟩ :=
      retryGo_last_step f 3 1000 2 0 e h2 (by decide) (by decide)
    rw [key _ h0 h1 hstep]
    norm_num
  · intro m b n h
    have := retryGo_delays_getD f m b m.toNat 0 n
    simpa [fetchWithRetry] using this h

/-- Witness for C4: a fetcher failing on attempts 0 and 1 (one network error,
one HTTP 500) and succeeding on attempt 2; the schedule and outcome are as the
claim states, and the first recorded delay obeys the general law. -/
theorem claim_C4_retry_schedule_witness :
    fetchWithRetry
        (fun n => if n = 0 then .error "ECONNRESET"
          else if n = 1 then .ok ⟨false, 500, ""⟩
          else .ok ⟨true, 200, "payload"⟩) 3 1000 =
      ⟨3, [1000, 2000], .ok (some ⟨true, 200, "payload"⟩)⟩ :=
  (claim_C4_retry_schedule _).1 ⟨true, 200, "payload"⟩
    (by decide) (by decide) (by decide) (by decide)

theorem runTile_exists (env : TileEnv) (fuel : ℕ) (b : Bbox) (t : String) (d : ℕ)
    (h : env.gpkgExists ("tiles/tile_" ++ t ++ ".gpkg") = true) :
    runTile env fuel b t d = ⟨["tiles/tile_" ++ t ++ ".gpkg"], [], 0, []⟩ := by
  unfold runTile
  simp [h]

theorem runTile_fetchError (env : TileEnv) (fuel : ℕ) (b : Bbox) (t : String)
    (d : ℕ) (e : String)
    (hne : env.gpkgExists ("tiles/tile_" ++ t ++ ".gpkg") = false)
    (he : (fetchWithRetry (env.fetchAttempt (tileUrl b)) 3 1000).result = .error e) :
    runTile env fuel b t d = ⟨[], [d], 1, [failLog t e (tileUrl b)]⟩ := by
  unfold runTile
  simp [hne, he]

theorem runTile_fetchNone (env : TileEnv) (fuel : ℕ) (b : Bbox) (t : String)
    (d : ℕ)
    (hne : env.gpkgExists ("tiles/tile_" ++ t ++ ".gpkg") = false)
    (he : (fetchWithRetry (env.fetchAttempt (tileUrl b)) 3 1000).result = .ok none) :
    runTile env fuel b t d = ⟨[], [d], 1, [failLog t "res is undefined" (tileUrl b)]⟩ := by
  unfold runTile
  simp [hne, he]

theorem runTile_convert (env : TileEnv) (fuel : ℕ) (b : Bbox) (t : String)
    (d : ℕ) (res : Response)
    (hne : env.gpkgExists ("tiles/tile_" ++ t ++ ".gpkg") = false)
    (hres : (fetchWithRetry (env.fetchAttempt (tileUrl b)) 3 1000).result = .ok (some res))
    (hns : ¬(400 ≤ countFeatures res.body ∧ d < 5)) :
    runTile env fuel b t d =
      convertPhase env t (tileUrl b) ("tiles/tile_" ++ t ++ ".gml")
        ("tiles/tile_" ++ t ++ ".gpkg") res.body d := by
  unfold runTile
  simp [hne, hres, hns]

theorem runTile_split (env : TileEnv) (fuel : ℕ) (b : Bbox) (t : String)
    (d : ℕ) (res : Response)
    (hne : env.gpkgExists ("tiles/tile_" ++ t ++ ".gpkg") = false)
    (hres : (fetchWithRetry (env.fetchAttempt (tileUrl b)) 3 1000).result = .ok (some res))
    (hsp : 400 ≤ countFeatures res.body ∧ d < 5) :
    runTile env (fuel + 1) b t d =
      ⟨(((splitBbox b).enum.map fun p =>
            runTile env fuel p.2 (t ++ "_" ++ toString p.1) (d + 1)).map
          TileRun.artifacts).flatten,
        d :: (((splitBbox b).enum.map fun p =>
            runTile env fuel p.2 (t ++ "_" ++ toString p.1) (d + 1)).map
          TileRun.fetchedDepths).flatten,
        (((splitBbox b).enum.map fun p =>
            runTile env fuel p.2 (t ++ "_" ++ toString p.1) (d + 1)).map
          TileRun.leafFetches).sum,
        (((splitBbox b).enum.map fun p =>
            runTile env fuel p.2 (t ++ "_" ++ toString p.1) (d + 1)).map
          TileRun.errorLogs).flatten⟩ := by
  conv_lhs => rw [runTile]
  simp [hne, hres, hsp]

theorem runTile_fuel_congr (env : TileEnv) :
    ∀ (f₁ f₂ : ℕ) (b : Bbox) (t : String) (d : ℕ),
      5 - d < f₁ → 5 - d < f₂ → runTile env f₁ b t d = runTile env f₂ b t d := by
  intro f₁
  induction f₁ with
  | zero => intro f₂ b t d h1 h2; omega
  | succ g₁ ih =>
    intro f₂ b t d h1 h2
    by_cases hex : env.gpkgExists ("tiles/tile_" ++ t ++ ".gpkg") = true
    · rw [runTile_exists env _ b t d hex, runTile_exists env _ b t d hex]
    · have hne : env.gpkgExists ("tiles/tile_" ++ t ++ ".gpkg") = false := by
        simpa using hex
      cases hres : (fetchWithRetry (env.fetchAttempt (tileUrl b)) 3 1000).result with
      | error e =>
        rw [runTile_fetchError env _ b t d e hne hres,
          runTile_fetchError env _ b t d e hne hres]
      | ok o =>
        cases o with
        | none =>
          rw [runTile_fetchNone env _ b t d hne hres,
            runTile_fetchNone env _ b t d hne hres]
        | some res =>
          by_cases hsp : 400 ≤ countFeatures res.body ∧ d < 5
          · have hd5 : d < 5 := hsp.2
            obtain ⟨g₂, rfl⟩ : ∃ g, f₂ = g + 1 := ⟨f₂ - 1, by omega⟩
            rw [runTile_split env g₁ b t d res hne hres hsp,
              runTile_split env g₂ b t d res hne hres hsp]
            have hruns :
                ((splitBbox b).enum.map fun p =>
                    runTile env g₁ p.2 (t ++ "_" ++ toString p.1) (d + 1)) =
                  ((splitBbox b).enum.map fun p =>
                    runTile env g₂ p.2 (t ++ "_" ++ toString p.1) (d + 1)) := by
              refine List.map_congr_left ?_
              intro p _
              exact ih g₂ p.2 (t ++ "_" ++ toString p.1) (d + 1)
                (by omega) (by omega)
            rw [hruns]
          · rw [runTile_convert env _ b t d res hne hres hsp,
              runTile_convert env _ b t d res hne hres hsp]

/-- **C3.** If the converted artifact `tiles/tile_<tileId>.gpkg` already
exists, `fetchAndConvertTile` returns exactly that one path, and the whole
fetch/split/convert pipeline is skipped: no network request is issued (no
fetched depth is recorded) and nothing is logged as failed. -/
theorem claim_C3_idempotent_resume (env : TileEnv) (b : Bbox) (t : String)
    (d : ℕ) (h : env.gpkgExists ("tiles/tile_" ++ t ++ ".gpkg") = true) :
    fetchAndConvertTile env b t d = ["tiles/tile_" ++ t ++ ".gpkg"] ∧
      (runTile env 6 b t d).fetchedDepths = [] ∧
      (runTile env 6 b t d).errorLogs = [] := by
  unfold fetchAndConvertTile
  rw [runTile_exists env 6 b t d h]
  exact ⟨rfl, rfl, rfl⟩

/-- Witness for C3: an environment whose artifact store already has every
tile. -/
theorem claim_C3_idempotent_resume_witness :
    fetchAndConvertTile
        ⟨fun _ => true, fun _ _ => .error "offline", fun _ _ => .ok (),
          fun _ => .ok (), fun _ => .ok ()⟩
        ⟨0, 0, 1, 1⟩ "t" 0 = ["tiles/tile_t.gpkg"] :=
  (claim_C3_idempotent_resume
      ⟨fun _ => true, fun _ _ => .error "offline", fun _ _ => .ok (),
        fun _ => .ok (), fun _ => .ok ()⟩
      ⟨0, 0, 1, 1⟩ "t" 0 (by decide)).1

/-- **C1.** For a tile whose artifact is missing and whose fetch succeeds:
`splitBbox` yields exactly four quadrant boxes, and the tile is subdivided
precisely when the counted feature occurrences reach `400 = 0.4 × 1000` and
the depth is below `maxDepth = 5`; in that case the result is the flattened
union of the four recursive `fetchAndConvertTile` calls on the quadrants at
`depth + 1` (sub-tile `i` named `` `${tileId}_${i}` ``); otherwise the tile
takes the convert path. -/
theorem claim_C1_saturation_split (env : TileEnv) (b : Bbox) (t : String)
    (d : ℕ) (res : Response)
    (hne : env.gpkgExists ("tiles/tile_" ++ t ++ ".gpkg") = false)
    (hres : (fetchWithRetry (env.fetchAttempt (tileUrl b)) 3 1000).result =
      .ok (some res)) :
    (splitBbox b).length = 4 ∧
      (400 ≤ countFeatures res.body ∧ d < 5 →
        fetchAndConvertTile env b t d =
          ((splitBbox b).enum.map fun p =>
            fetchAndConvertTile env p.2 (t ++ "_" ++ toString p.1) (d + 1)).flatten) ∧
      (¬(400 ≤ countFeatures res.body ∧ d < 5) →
        fetchAndConvertTile env b t d =
          (convertPhase env t (tileUrl b) ("tiles/tile_" ++ t ++ ".gml")
            ("tiles/tile_" ++ t ++ ".gpkg") res.body d).artifacts) := by
  refine ⟨by simp [splitBbox], ?_, ?_⟩
  · intro hsp
    unfold fetchAndConvertTile
    have hd5 : d < 5 := hsp.2
    rw [show (6 : ℕ) = 5 + 1 from rfl, runTile_split env 5 b t d res hne hres hsp]
    simp only [List.map_map]
    refine congrArg List.flatten (List.map_congr_left ?_)
    intro p _
    simp only [Function.comp]
    exact congrArg TileRun.artifacts
      (runTile_fuel_congr env 5 6 p.2 (t ++ "_" ++ toString p.1) (d + 1)
        (by omega) (by omega))
  · intro hns
    unfold fetchAndConvertTile
    rw [runTile_convert env 6 b t d res hne hres hns]

/-- Witness for C1: artifact missing, fetch succeeding with an empty payload
(0 features), so the tile takes the convert path and yields its single
artifact; `splitBbox` on its box has exactly four quadrants. -/
theorem claim_C1_saturation_split_witness :
    (splitBbox ⟨0, 0, 1, 1⟩).length = 4 ∧
      fetchAndConvertTile
          ⟨fun _ => false, fun _ _ => .ok ⟨true, 200, ""⟩, fun _ _ => .ok (),
            fun _ => .ok (), fun _ => .ok ()⟩
          ⟨0, 0, 1, 1⟩ "t" 0 = ["tiles/tile_t.gpkg"] := by
  have h := claim_C1_saturation_split
    ⟨fun _ => false, fun _ _ => .ok ⟨true, 200, ""⟩, fun _ _ => .ok (),
      fun _ => .ok (), fun _ => .ok ()⟩
    ⟨0, 0, 1, 1⟩ "t" 0 ⟨true, 200, ""⟩ (by decide) (by decide)
  refine ⟨h.1, ?_⟩
  rw [h.2.2 (by decide)]
  decide

/-- **C5.** With the artifact missing, every failure after the existence check
— retries exhausted (the `fetchWithRetry` call rejecting), raw-payload write
failure, `ogr2ogr` conversion failure, or cleanup failure — is caught: the
call returns the empty artifact list and logs exactly one `console.error` line
containing the tile identifier and the request URL.  (The model's return type
is total: no error value can propagate to the caller.) -/
theorem claim_C5_failure_isolated (env : TileEnv) (b : Bbox) (t : String)
    (d : ℕ)
    (hne : env.gpkgExists ("tiles/tile_" ++ t ++ ".gpkg") = false) :
    (∀ e : String,
      (fetchWithRetry (env.fetchAttempt (tileUrl b)) 3 1000).result = .error e →
      runTile env 6 b t d = ⟨[], [d], 1, [failLog t e (tileUrl b)]⟩) ∧
    (∀ (res : Response) (e : String),
      (fetchWithRetry (env.fetchAttempt (tileUrl b)) 3 1000).result = .ok (some res) →
      ¬(400 ≤ countFeatures res.body ∧ d < 5) →
      env.writeFile ("tiles/tile_" ++ t ++ ".gml") res.body = .error e →
      runTile env 6 b t d = ⟨[], [d], 1, [failLog t e (tileUrl b)]⟩) ∧
    (∀ (res : Response) (e : String),
      (fetchWithRetry (env.fetchAttempt (tileUrl b)) 3 1000).result = .ok (some res) →
      ¬(400 ≤ countFeatures res.body ∧ d < 5) →
      env.writeFile ("tiles/tile_" ++ t ++ ".gml") res.body = .ok () →
      env.convert ("tiles/tile_" ++ t ++ ".gpkg") = .error e →
      runTile env 6 b t d = ⟨[], [d], 1, [failLog t e (tileUrl b)]⟩) ∧
    (∀ (res : Response) (e : String),
      (fetchWithRetry (env.fetchAttempt (tileUrl b)) 3 1000).result = .ok (some res) →
      ¬(400 ≤ countFeatures res.body ∧ d < 5) →
      env.writeFile ("tiles/tile_" ++ t ++ ".gml") res.body = .ok () →
      env.convert ("tiles/tile_" ++ t ++ ".gpkg") = .ok () →
      env.unlink ("tiles/tile_" ++ t ++ ".gml") = .error e →
      runTile env 6 b t d = ⟨[], [d], 1, [failLog t e (tileUrl b)]⟩) := by
  refine ⟨?_, ?_, ?_, ?_⟩
  · intro e he
    exact runTile_fetchError env 6 b t d e hne he
  · intro res e hres hns hw
    rw [runTile_convert env 6 b t d res hne hres hns]
    unfold convertPhase
    rw [hw]
  · intro res e hres hns hw hc
    rw [runTile_convert env 6 b t d res hne hres hns]
    unfold convertPhase
    rw [hw, hc]
  · intro res e hres hns hw hc hu
    rw [runTile_convert env 6 b t d res hne hres hns]
    unfold convertPhase
    rw [hw, hc, hu]

/-- Witness for C5: a tile whose fetch rejects after the retries are
exhausted yields no artifacts and one failure log line. -/
theorem claim_C5_failure_isolated_witness :
    runTile
        ⟨fun _ => false, fun _ _ => .error "ETIMEDOUT", fun _ _ => .ok (),
          fun _ => .ok (), fun _ => .ok ()⟩ 6 ⟨0, 0, 1, 1⟩ "t" 0 =
      ⟨[], [0], 1,
        [failLog "t" "ETIMEDOUT" (tileUrl ⟨0, 0, 1, 1⟩)]⟩ :=
  (claim_C5_failure_isolated
      ⟨fun _ => false, fun _ _ => .error "ETIMEDOUT", fun _ _ => .ok (),
        fun _ => .ok (), fun _ => .ok ()⟩
      ⟨0, 0, 1, 1⟩ "t" 0 (by decide)).1 "ETIMEDOUT" (by decide)

theorem convertPhase_fetchedDepths (env : TileEnv) (t url gml gpkg xml : String)
    (d : ℕ) : (convertPhase env t url gml gpkg xml d).fetchedDepths = [d] := by
  unfold convertPhase
  cases env.writeFile gml xml with
  | error e => rfl
  | ok u =>
    cases env.convert gpkg with
    | error e => rfl
    | ok u =>
      cases env.unlink gml with
      | error e => rfl
      | ok u => rfl

theorem convertPhase_leafFetches (env : TileEnv) (t url gml gpkg xml : String)
    (d : ℕ) : (convertPhase env t url gml gpkg xml d).leafFetches = 1 := by
  unfold convertPhase
  cases env.writeFile gml xml with
  | error e => rfl
  | ok u =>
    cases env.convert gpkg with
    | error e => rfl
    | ok u =>
      cases env.unlink gml with
      | error e => rfl
      | ok u => rfl

theorem runTile_depths_bound (env : TileEnv) :
    ∀ (fuel : ℕ) (b : Bbox) (t : String) (d : ℕ),
      ∀ x ∈ (runTile env fuel b t d).fetchedDepths, d ≤ x ∧ x ≤ max d 5 := by
  intro fuel
  induction fuel with
  | zero =>
    intro b t d x hx
    by_cases hex : env.gpkgExists ("tiles/tile_" ++ t ++ ".gpkg") = true
    · rw [runTile_exists env 0 b t d hex] at hx
      simp at hx
    · have hne : env.gpkgExists ("tiles/tile_" ++ t ++ ".gpkg") = false := by
        simpa using hex
      cases hres : (fetchWithRetry (env.fetchAttempt (tileUrl b)) 3 1000).result with
      | error e =>
        rw [runTile_fetchError env 0 b t d e hne hres] at hx
        simp at hx
        omega
      | ok o =>
        cases o with
        | none =>
          rw [runTile_fetchNone env 0 b t d hne hres] at hx
          simp at hx
          omega
        | some res =>
          by_cases hsp : 400 ≤ countFeatures res.body ∧ d < 5
          · have : runTile env 0 b t d = ⟨[], [d], 0, []⟩ := by
              unfold runTile
              simp [hne, hres, hsp]
            rw [this] at hx
            simp at hx
            omega
          · rw [runTile_convert env 0 b t d res hne hres hsp,
              convertPhase_fetchedDepths] at hx
            simp at hx
            omega
  | succ g ih =>
    intro b t d x hx
    by_cases hex : env.gpkgExists ("tiles/tile_" ++ t ++ ".gpkg") = true
    · rw [runTile_exists env _ b t d hex] at hx
      simp at hx
    · have hne : env.gpkgExists ("tiles/tile_" ++ t ++ ".gpkg") = false := by
        simpa using hex
      cases hres : (fetchWithRetry (env.fetchAttempt (tileUrl b)) 3 1000).result with
      | error e =>
        rw [runTile_fetchError env _ b t d e hne hres] at hx
        simp at hx
        omega
      | ok o =>
        cases o with
        | none =>
          rw [runTile_fetchNone env _ b t d hne hres] at hx
          simp at hx
          omega
        | some res =>
          by_cases hsp : 400 ≤ countFeatures res.body ∧ d < 5
          · rw [runTile_split env g b t d res hne hres hsp] at hx
            simp only [List.mem_cons, List.mem_flatten, List.mem_map] at hx
            rcases hx with rfl | ⟨l, ⟨run, ⟨p, hp, rfl⟩, rfl⟩, hxl⟩
            · omega
            · have := ih p.2 (t ++ "_" ++ toString p.1) (d + 1) x hxl
              omega
          · rw [runTile_convert env _ b t d res hne hres hsp,
              convertPhase_fetchedDepths] at hx
            simp at hx
            omega

theorem runTile_leaf_bound (env : TileEnv) :
    ∀ (fuel : ℕ) (b : Bbox) (t : String) (d : ℕ),
      (runTile env fuel b t d).leafFetches ≤ 4 ^ (5 - d) := by
  have hone : ∀ d : ℕ, 1 ≤ 4 ^ (5 - d) := fun d => Nat.one_le_pow _ _ (by omega)
  intro fuel
  induction fuel with
  | zero =>
    intro b t d
    by_cases hex : env.gpkgExists ("tiles/tile_" ++ t ++ ".gpkg") = true
    · rw [runTile_exists env 0 b t d hex]
      exact Nat.zero_le _
    · have hne : env.gpkgExists ("tiles/tile_" ++ t ++ ".gpkg") = false := by
        simpa using hex
      cases hres : (fetchWithRetry (env.fetchAttempt (tileUrl b)) 3 1000).result with
      | error e =>
        rw [runTile_fetchError env 0 b t d e hne hres]
        exact hone d
      | ok o =>
        cases o with
        | none =>
          rw [runTile_fetchNone env 0 b t d hne hres]
          exact hone d
        | some res =>
          by_cases hsp : 400 ≤ countFeatures res.body ∧ d < 5
          · have : runTile env 0 b t d = ⟨[], [d], 0, []⟩ := by
              unfold runTile
              simp [hne, hres, hsp]
            rw [this]
            exact Nat.zero_le _
          · rw [runTile_convert env 0 b t d res hne hres hsp,
              convertPhase_leafFetches]
            exact hone d
  | succ g ih =>
    intro b t d
    by_cases hex : env.gpkgExists ("tiles/tile_" ++ t ++ ".gpkg") = true
    · rw [runTile_exists env _ b t d hex]
      exact Nat.zero_le _
    · have hne : env.gpkgExists ("tiles/tile_" ++ t ++ ".gpkg") = false := by
        simpa using hex
      cases hres : (fetchWithRetry (env.fetchAttempt (tileUrl b)) 3 1000).result with
      | error e =>
        rw [runTile_fetchError env _ b t d e hne hres]
        exact hone d
      | ok o =>
        cases o with
        | none =>
          rw [runTile_fetchNone env _ b t d hne hres]
          exact hone d
        | some res =>
          by_cases hsp : 400 ≤ countFeatures res.body ∧ d < 5
          · rw [runTile_split env g b t d res hne hres hsp]
            have hlen :
                (((splitBbox b).enum.map fun p =>
                    runTile env g p.2 (t ++ "_" ++ toString p.1) (d + 1)).map
                  TileRun.leafFetches).length = 4 := by
              simp [splitBbox]
            have hbound : ∀ n ∈ ((splitBbox b).enum.map fun p =>
                runTile env g p.2 (t ++ "_" ++ toString p.1) (d + 1)).map
                  TileRun.leafFetches, n ≤ 4 ^ (5 - (d + 1)) := by
              intro n hn
              simp only [List.mem_map] at hn
              rcases hn with ⟨run, ⟨p, hp, rfl⟩, rfl⟩
              exact ih p.2 (t ++ "_" ++ toString p.1) (d + 1)
            calc (((splitBbox b).enum.map fun p =>
                    runTile env g p.2 (t ++ "_" ++ toString p.1) (d + 1)).map
                  TileRun.leafFetches).sum
                ≤ (((splitBbox b).enum.map fun p =>
                    runTile env g p.2 (t ++ "_" ++ toString p.1) (d + 1)).map
                  TileRun.leafFetches).length * 4 ^ (5 - (d + 1)) :=
                  List.sum_le_card_nsmul _ _ hbound
              _ = 4 * 4 ^ (5 - (d + 1)) := by rw [hlen]
              _ = 4 ^ (5 - d) := by
                  rw [show 5 - d = (5 - (d + 1)) + 1 by omega, pow_succ]
                  ring
          · rw [runTile_convert env _ b t d res hne hres hsp,
              convertPhase_leafFetches]
            exact hone d

/-- **C2.** `fetchAndConvertTile` terminates on every input: its behaviour is
independent of the structural recursion bound once that bound exceeds
`5 - depth` (so the `depth < 5` guard, with `depth + 1` passed to every
recursive call, is what bounds the recursion); no network request is ever
issued deeper than depth 5; and a root tile (depth 0) issues at most
`4 ^ 5 = 1024` leaf fetches. -/
theorem claim_C2_termination_depth_bound (env : TileEnv) (b : Bbox) (t : String) :
    (∀ (d f₁ f₂ : ℕ), 5 - d < f₁ → 5 - d < f₂ →
        runTile env f₁ b t d = runTile env f₂ b t d) ∧
    (∀ x ∈ (runTile env 6 b t 0).fetchedDepths, x ≤ 5) ∧
    (runTile env 6 b t 0).leafFetches ≤ 4 ^ 5 := by
  refine ⟨fun d f₁ f₂ h1 h2 => runTile_fuel_congr env f₁ f₂ b t d h1 h2, ?_, ?_⟩
  · intro x hx
    have := runTile_depths_bound env 6 b t 0 x hx
    omega
  · have := runTile_leaf_bound env 6 b t 0
    simpa using this

/-- Witness for C2 on a concrete environment (artifact missing, fetch
returning an empty payload): a fetch is recorded at depth 0 ≤ 5 and the leaf
fetch count is within `4 ^ 5`. -/
theorem claim_C2_termination_depth_bound_witness :
    (0 : ℕ) ≤ 5 ∧
      (runTile
          ⟨fun _ => false, fun _ _ => .ok ⟨true, 200, ""⟩, fun _ _ => .ok (),
            fun _ => .ok (), fun _ => .ok ()⟩ 6 ⟨0, 0, 1, 1⟩ "t" 0).leafFetches ≤
        4 ^ 5 :=
  ⟨(claim_C2_termination_depth_bound
      ⟨fun _ => false, fun _ _ => .ok ⟨true, 200, ""⟩, fun _ _ => .ok (),
        fun _ => .ok (), fun _ => .ok ()⟩ ⟨0, 0, 1, 1⟩ "t").2.1 0 (by decide),
    (claim_C2_termination_depth_bound
      ⟨fun _ => false, fun _ _ => .ok ⟨true, 200, ""⟩, fun _ _ => .ok (),
        fun _ => .ok (), fun _ => .ok ()⟩ ⟨0, 0, 1, 1⟩ "t").2.2⟩

theorem appendMergedContent_some (l : List String) :
    ∀ bs : List (List String),
      appendMergedContent (some l) bs = some (l ++ bs.flatten) := by
  intro bs
  induction bs generalizing l with
  | nil => simp [appendMergedContent]
  | cons b rest ih =>
    simp only [appendMergedContent, List.foldl_cons, Option.getD_some] at ih ⊢
    rw [ih (l ++ b)]
    simp

theorem mergeBatchesGo_first_fail (fails : ℕ → Bool) :
    ∀ (k : ℕ) (batches : List (List String)) (num : ℕ)
      (content : Option (List String)),
      k < batches.length →
      (∀ i, num ≤ i → i < num + k → fails i = false) →
      fails (num + k) = true →
      mergeBatchesGo fails batches num content =
        (.error ("Error processing batch " ++ toString (num + k)),
          appendMergedContent content (batches.take k)) := by
  intro k
  induction k with
  | zero =>
    intro batches num content hlen hpre hfail
    cases batches with
    | nil => simp at hlen
    | cons b rest =>
      simp only [Nat.add_zero] at hfail
      simp [mergeBatchesGo, hfail, appendMergedContent]
  | succ k ih =>
    intro batches num content hlen hpre hfail
    cases batches with
    | nil => simp at hlen
    | cons b rest =>
      have hnum : fails num = false := hpre num le_rfl (by omega)
      simp only [mergeBatchesGo, hnum, Bool.false_eq_true, if_false]
      rw [ih rest (num + 1) (some (content.getD [] ++ b)) (by simpa using hlen)
        (fun i h1 h2 => hpre i (by omega) (by omega)) (by
          have : num + 1 + k = num + (k + 1) := by omega
          rw [this]
          exact hfail)]
      rw [show num + 1 + k = num + (k + 1) by omega, List.take_succ_cons]
      simp [appendMergedContent]

set_option maxRecDepth 100000 in
/-- **C6, counterexample.** With 1001 validated artifacts (two batches at
`batchSize = 1000`) and the second batch's `ogr2ogr` invocation failing, the
merge loop aborts with the propagated error — but the output path still holds
the 1000 files of the first batch: a partial dataset, neither absent nor the
full result, contradicting "no partial or corrupt dataset is left in place at
the output path". -/
theorem claim_C6_counterexample :
    (runMergePhase (fun n => n == 2) (List.replicate 1001 "t.gpkg")).1 =
        .error "Error processing batch 2" ∧
      (runMergePhase (fun n => n == 2) (List.replicate 1001 "t.gpkg")).2 =
        some (List.replicate 1000 "t.gpkg") ∧
      some (List.replicate 1000 "t.gpkg") ≠ (none : Option (List String)) ∧
      List.replicate 1000 "t.gpkg" ≠ List.replicate 1001 "t.gpkg" := by
  refine ⟨by decide, by decide, by decide, ?_⟩
  intro h
  have := congrArg List.length h
  simp at this

/-- **C6, amended.** If the batches numbered `1 … k` succeed and batch `k + 1`
fails, the merge phase aborts at batch `k + 1` with the error propagated to
the caller (no later batch is appended) — but the output path retains the
partially merged content of the `k` earlier batches (absent only when the very
first batch fails). -/
theorem claim_C6_merge_abort (fails : ℕ → Bool) (files : List String) (k : ℕ)
    (hk : k < (chunksOf 1000 files).length)
    (hpre : ∀ i, 1 ≤ i → i ≤ k → fails i = false)
    (hfail : fails (k + 1) = true) :
    runMergePhase fails files =
      (.error ("Error processing batch " ++ toString (k + 1)),
        if k = 0 then none
        else some (((chunksOf 1000 files).take k).flatten)) := by
  unfold runMergePhase
  rw [mergeBatchesGo_first_fail fails k (chunksOf 1000 files) 1 none hk
    (fun i h1 h2 => hpre i h1 (by omega))
    (by rw [show 1 + k = k + 1 by omega]; exact hfail)]
  rw [show 1 + k = k + 1 by omega]
  cases k with
  | zero => simp [appendMergedContent]
  | succ k =>
    have htne : (chunksOf 1000 files).take (k + 1) ≠ [] := by
      intro h
      have hl := congrArg List.length h
      simp only [List.length_take, List.length_nil] at hl
      omega
    obtain ⟨b, rest, hbr⟩ := List.exists_cons_of_ne_nil htne
    rw [hbr]
    simp only [appendMergedContent, List.foldl_cons, Option.getD_none,
      List.nil_append, Nat.succ_ne_zero, if_false]
    rw [show List.foldl (fun acc batch => some (acc.getD [] ++ batch))
        (some b) rest = appendMergedContent (some b) rest from rfl]
    rw [appendMergedContent_some]
    simp

set_option maxRecDepth 100000 in
/-- Witness for the amended C6 at the counterexample instance: first batch
succeeds, second fails, and the output path keeps exactly the first batch. -/
theorem claim_C6_merge_abort_witness :
    runMergePhase (fun n => n == 2) (List.replicate 1001 "t.gpkg") =
      (.error "Error processing batch 2",
        some (((chunksOf 1000 (List.replicate 1001 "t.gpkg")).take 1).flatten)) := by
  have h := claim_C6_merge_abort (fun n => n == 2)
    (List.replicate 1001 "t.gpkg") 1 (by decide)
    (fun i h1 h2 => by
      have hi : i = 1 := by omega
      subst hi
      rfl)
    (by decide)
  simpa using h

theorem mem_groupMinRowids (t : List Record) (m : ℕ) :
    m ∈ groupMinRowids t ↔
      ∃ s ∈ t, s.rowid = m ∧ ∀ u ∈ t, u.capakey = s.capakey → m ≤ u.rowid := by
  constructor
  · intro hm
    simp only [groupMinRowids, List.mem_filterMap] at hm
    obtain ⟨k, hk, hmin⟩ := hm
    rw [List.min?_eq_some_iff'] at hmin
    obtain ⟨hmem, hle⟩ := hmin
    simp only [List.mem_map, List.mem_filter, decide_eq_true_eq] at hmem
    obtain ⟨s, ⟨hst, hsk⟩, hsr⟩ := hmem
    refine ⟨s, hst, hsr, ?_⟩
    intro u hut huk
    refine hle u.rowid ?_
    simp only [List.mem_map, List.mem_filter, decide_eq_true_eq]
    exact ⟨u, ⟨hut, by rw [huk, hsk]⟩, rfl⟩
  · rintro ⟨s, hst, rfl, hmin⟩
    simp only [groupMinRowids, List.mem_filterMap]
    refine ⟨s.capakey, ?_, ?_⟩
    · rw [List.mem_dedup]
      exact List.mem_map_of_mem Record.capakey hst
    · rw [List.min?_eq_some_iff']
      constructor
      · simp only [List.mem_map, List.mem_filter, decide_eq_true_eq]
        exact ⟨s, ⟨hst, rfl⟩, rfl⟩
      · intro b hb
        simp only [List.mem_map, List.mem_filter, decide_eq_true_eq] at hb
        obtain ⟨u, ⟨hut, huk⟩, rfl⟩ := hb
        exact hmin u hut huk

theorem nodup_all_eq_length_le_one {l : List ℕ} (m : ℕ) (hnd : l.Nodup)
    (h : ∀ x ∈ l, x = m) : l.length ≤ 1 := by
  cases l with
  | nil => simp
  | cons a rest =>
    cases rest with
    | nil => simp
    | cons b rest2 =>
      exfalso
      have ha : a = m := h a (by simp)
      have hb : b = m := h b (by simp)
      rw [List.nodup_cons] at hnd
      exact hnd.1 (by simp [ha, hb])

/-- **C7.** Under distinct internal row identifiers (which SQLite's `ROWID`
guarantees), the dedup query keeps a record of the merged table exactly when
its `ROWID` is minimal among the records sharing its `CaPaKey` — so a record
with a unique key is kept unchanged — and for every key present in the table
exactly one record with that key survives. -/
theorem claim_C7_dedup_unique_key (t : List Record)
    (hnd : (t.map Record.rowid).Nodup) :
    (∀ r ∈ t, (r ∈ dedupTable t ↔
        ∀ s ∈ t, s.capakey = r.capakey → r.rowid ≤ s.rowid)) ∧
    (∀ k ∈ t.map Record.capakey,
        ((dedupTable t).filter (fun r => r.capakey = k)).length = 1) := by
  have hinj : ∀ x ∈ t, ∀ y ∈ t, x.rowid = y.rowid → x = y :=
    List.inj_on_of_nodup_map hnd
  constructor
  · intro r hrt
    constructor
    · intro hrd
      simp only [dedupTable, List.mem_filter, decide_eq_true_eq] at hrd
      obtain ⟨-, hmin⟩ := hrd
      rw [mem_groupMinRowids] at hmin
      obtain ⟨s, hst, hsr, hsmin⟩ := hmin
      have hsr2 : s = r := hinj s hst r hrt hsr
      intro u hut huk
      exact hsmin u hut (by rw [huk, hsr2])
    · intro hmin
      simp only [dedupTable, List.mem_filter, decide_eq_true_eq]
      refine ⟨hrt, ?_⟩
      rw [mem_groupMinRowids]
      exact ⟨r, hrt, rfl, fun u hut huk => hmin u hut huk⟩
  · intro k hk
    simp only [List.mem_map] at hk
    obtain ⟨w, hwt, hwk⟩ := hk
    -- the group of key `k` is nonempty, so its minimum exists
    have hwmem : w.rowid ∈ (t.filter fun r => r.capakey = k).map Record.rowid := by
      simp only [List.mem_map, List.mem_filter, decide_eq_true_eq]
      exact ⟨w, ⟨hwt, hwk⟩, rfl⟩
    obtain ⟨m, hm⟩ := Option.isSome_iff_exists.mp (List.isSome_min?_of_mem hwmem)
    have hm2 := hm
    rw [List.min?_eq_some_iff'] at hm2
    obtain ⟨hmmem, hmle⟩ := hm2
    simp only [List.mem_map, List.mem_filter, decide_eq_true_eq] at hmmem
    obtain ⟨r₀, ⟨hr₀t, hr₀k⟩, hr₀m⟩ := hmmem
    set L := (dedupTable t).filter (fun r => r.capakey = k) with hL
    -- every record of `L` has rowid `m`
    have hall : ∀ r ∈ L, r.rowid = m := by
      intro r hr
      rw [hL, List.mem_filter] at hr
      obtain ⟨hrd, hrk0⟩ := hr
      have hrk : r.capakey = k := by simpa using hrk0
      simp only [dedupTable, List.mem_filter, decide_eq_true_eq] at hrd
      obtain ⟨hrt, hrmin⟩ := hrd
      rw [mem_groupMinRowids] at hrmin
      obtain ⟨s, hst, hsr, hsmin⟩ := hrmin
      have hsr2 : s = r := hinj s hst r hrt hsr
      have hmin2 : ((t.filter fun x => x.capakey = k).map Record.rowid).min? =
          some r.rowid := by
        rw [List.min?_eq_some_iff']
        refine ⟨?_, ?_⟩
        · simp only [List.mem_map, List.mem_filter, decide_eq_true_eq]
          exact ⟨r, ⟨hrt, hrk⟩, rfl⟩
        · intro b hb
          simp only [List.mem_map, List.mem_filter, decide_eq_true_eq] at hb
          obtain ⟨u, ⟨hut, huk⟩, rfl⟩ := hb
          exact hsmin u hut (by rw [huk, hsr2, hrk])
      rw [hmin2] at hm
      exact Option.some.inj hm
    -- `r₀` belongs to `L`
    have hr₀L : r₀ ∈ L := by
      rw [hL, List.mem_filter]
      refine ⟨?_, by simp [hr₀k]⟩
      simp only [dedupTable, List.mem_filter, decide_eq_true_eq]
      refine ⟨hr₀t, ?_⟩
      rw [mem_groupMinRowids]
      refine ⟨r₀, hr₀t, rfl, ?_⟩
      intro u hut huk
      rw [hr₀m]
      refine hmle u.rowid ?_
      simp only [List.mem_map, List.mem_filter, decide_eq_true_eq]
      exact ⟨u, ⟨hut, by rw [huk, hr₀k]⟩, rfl⟩
    -- `L` is a sublist of `t`, hence its rowids are distinct
    have hsub : L.Sublist t := by
      have h1 : L.Sublist (dedupTable t) := List.filter_sublist _
      have h2 : (dedupTable t).Sublist t := List.filter_sublist _
      exact h1.trans h2
    have hLnd : (L.map Record.rowid).Nodup := (hsub.map Record.rowid).nodup hnd
    have hle1 : L.length ≤ 1 := by
      have := nodup_all_eq_length_le_one m hLnd ?_
      · simpa using this
      · intro x hx
        simp only [List.mem_map] at hx
        obtain ⟨r, hr, rfl⟩ := hx
        exact hall r hr
    have hge1 : 1 ≤ L.length := List.length_pos.mpr (List.ne_nil_of_mem hr₀L)
    omega

/-- Witness for C7 on a three-row table with a duplicated key `"A"`: the
deduplicated table keeps the `"A"` record with the smaller `ROWID` and the
unique `"B"` record, and exactly one `"A"` record survives. -/
theorem claim_C7_dedup_unique_key_witness :
    dedupTable [⟨1, "A", "x"⟩, ⟨2, "A", "y"⟩, ⟨3, "B", "z"⟩] =
        [⟨1, "A", "x"⟩, ⟨3, "B", "z"⟩] ∧
      ((dedupTable [⟨1, "A", "x"⟩, ⟨2, "A", "y"⟩, ⟨3, "B", "z"⟩]).filter
          (fun r => r.capakey = "A")).length = 1 :=
  ⟨by decide,
    (claim_C7_dedup_unique_key [⟨1, "A", "x"⟩, ⟨2, "A", "y"⟩, ⟨3, "B", "z"⟩]
        (by decide)).2 "A" (by decide)⟩

theorem loopVals_eq_range (hi step : ℚ) (hs : 0 < step) :
    ∀ (fuel : ℕ) (y : ℚ), (⌈(hi - y) / step⌉).toNat < fuel →
      loopVals hi step fuel y =
        (List.range (⌈(hi - y) / step⌉).toNat).map fun k : ℕ => y + (k : ℚ) * step := by
  intro fuel
  induction fuel with
  | zero => intro y h; omega
  | succ fuel ih =>
    intro y h
    by_cases hlt : y < hi
    · have hpos : 0 < ⌈(hi - y) / step⌉ := by
        rw [Int.ceil_pos]
        exact div_pos (by linarith) hs
      have hstep : ⌈(hi - (y + step)) / step⌉ = ⌈(hi - y) / step⌉ - 1 := by
        rw [show (hi - (y + step)) / step = (hi - y) / step - 1 by
          field_simp
          ring]
        exact_mod_cast Int.ceil_sub_int ((hi - y) / step) 1
      have htn : (⌈(hi - y) / step⌉).toNat =
          (⌈(hi - (y + step)) / step⌉).toNat + 1 := by
        rw [hstep]
        omega
      rw [loopVals, if_pos hlt, ih (y + step) (by omega), htn,
        List.range_succ_eq_map]
      simp only [List.map_cons, List.map_map, Nat.cast_zero, zero_mul, add_zero]
      congr 1
      refine List.map_congr_left ?_
      intro k _
      simp only [Function.comp, Nat.succ_eq_add_one]
      push_cast
      ring
    · have hle : ⌈(hi - y) / step⌉ ≤ 0 := by
        have : (hi - y) / step ≤ ((0 : ℤ) : ℚ) := by
          rw [Int.cast_zero]
          apply div_nonpos_of_nonpos_of_nonneg
          · linarith
          · linarith
        exact Int.ceil_le.mpr this
      have h0 : (⌈(hi - y) / step⌉).toNat = 0 := by omega
      rw [loopVals, if_neg hlt, h0]
      simp

theorem axisVals_eq_range (lo hi step : ℚ) (hs : 0 < step) :
    axisVals lo hi step =
      (List.range (⌈(hi - lo) / step⌉).toNat).map fun k : ℕ => lo + (k : ℚ) * step := by
  unfold axisVals
  exact loopVals_eq_range hi step hs _ lo (by omega)

theorem axisVals_length (lo hi step : ℚ) (hs : 0 < step) :
    (axisVals lo hi step).length = (⌈(hi - lo) / step⌉).toNat := by
  rw [axisVals_eq_range lo hi step hs]
  simp

theorem generateTiles_length (e : Extent) (step : ℚ) (hs : 0 < step) :
    (generateTiles e step).length =
      (⌈(e.ymax - e.ymin) / step⌉).toNat * (⌈(e.xmax - e.xmin) / step⌉).toNat := by
  unfold generateTiles
  rw [List.length_flatMap]
  have hrow : ∀ y : ℚ,
      ((axisVals e.xmin e.xmax step).map fun x : ℚ =>
        (⟨roundCoord y, roundCoord x, roundCoord (y + step),
          roundCoord (x + step)⟩ : Bbox)).length =
      (⌈(e.xmax - e.xmin) / step⌉).toNat := by
    intro y
    rw [List.length_map, axisVals_length _ _ _ hs]
  calc ((axisVals e.ymin e.ymax step).map fun y =>
          ((axisVals e.xmin e.xmax step).map fun x : ℚ =>
            (⟨roundCoord y, roundCoord x, roundCoord (y + step),
              roundCoord (x + step)⟩ : Bbox)).length).sum
      = ((axisVals e.ymin e.ymax step).map fun _ =>
          (⌈(e.xmax - e.xmin) / step⌉).toNat).sum := by
        refine congrArg List.sum (List.map_congr_left ?_)
        intro y _
        exact hrow y
    _ = (axisVals e.ymin e.ymax step).length *
          (⌈(e.xmax - e.xmin) / step⌉).toNat := by
        induction axisVals e.ymin e.ymax step with
        | nil => simp
        | cons a l ih => simp [ih, Nat.succ_mul, Nat.add_comm]
    _ = (⌈(e.ymax - e.ymin) / step⌉).toNat *
          (⌈(e.xmax - e.xmin) / step⌉).toNat := by
        rw [axisVals_length _ _ _ hs]

theorem axis_cover (lo hi step : ℚ) (hlt : lo < hi) (hs : 0 < step) (v : ℚ)
    (h1 : lo ≤ v) (h2 : v ≤ hi) :
    ∃ j : ℕ, j < (⌈(hi - lo) / step⌉).toNat ∧
      lo + (j : ℚ) * step ≤ v ∧ v ≤ lo + ((j : ℚ) + 1) * step := by
  set n := ⌈(hi - lo) / step⌉ with hn
  have hnpos : 0 < n := by
    rw [hn, Int.ceil_pos]
    exact div_pos (by linarith) hs
  have hspan : hi ≤ lo + (n : ℚ) * step := by
    have hc := Int.le_ceil ((hi - lo) / step)
    rw [← hn] at hc
    have := (div_le_iff₀ hs).mp hc
    linarith
  set fl := ⌊(v - lo) / step⌋ with hfl
  have hflnn : 0 ≤ fl := by
    rw [hfl]
    exact Int.floor_nonneg.mpr (div_nonneg (by linarith) hs.le)
  have hfle : (fl : ℚ) * step ≤ v - lo :=
    (le_div_iff₀ hs).mp (Int.floor_le ((v - lo) / step))
  by_cases hcase : fl.toNat < n.toNat
  · have hcast : ((fl.toNat : ℕ) : ℚ) = (fl : ℚ) := by
      exact_mod_cast Int.toNat_of_nonneg hflnn
    refine ⟨fl.toNat, hcase, ?_, ?_⟩
    · rw [hcast]
      linarith
    · have hup : (v - lo) / step < (fl : ℚ) + 1 := Int.lt_floor_add_one _
      have hup2 : v - lo < ((fl : ℚ) + 1) * step := (div_lt_iff₀ hs).mp hup
      rw [hcast]
      linarith
  · have h1n : 1 ≤ n.toNat := by omega
    have hcastn : ((n.toNat : ℕ) : ℚ) = (n : ℚ) := by
      exact_mod_cast Int.toNat_of_nonneg hnpos.le
    have hj : (((n.toNat - 1 : ℕ) : ℕ) : ℚ) = (n : ℚ) - 1 := by
      rw [Nat.cast_sub h1n, hcastn]
      norm_num
    have hnfl : n ≤ fl := by omega
    have hnflq : (n : ℚ) ≤ (fl : ℚ) := by exact_mod_cast hnfl
    have hnstep : (n : ℚ) * step ≤ v - lo :=
      le_trans (mul_le_mul_of_nonneg_right hnflq hs.le) hfle
    have hexp : ((n : ℚ) - 1) * step = (n : ℚ) * step - step := by ring
    have hexp2 : ((n : ℚ) - 1 + 1) * step = (n : ℚ) * step := by ring
    refine ⟨n.toNat - 1, by omega, ?_, ?_⟩
    · rw [hj, hexp]
      linarith
    · rw [hj, hexp2]
      linarith

theorem gridAligned_add {a b : ℚ} (ha : gridAligned a) (hb : gridAligned b) :
    gridAligned (a + b) := by
  obtain ⟨m, rfl⟩ := ha
  obtain ⟨n, rfl⟩ := hb
  exact ⟨m + n, by push_cast; ring⟩

theorem gridAligned_natMul (k : ℕ) {s : ℚ} (hs : gridAligned s) :
    gridAligned ((k : ℚ) * s) := by
  obtain ⟨n, rfl⟩ := hs
  exact ⟨(k : ℤ) * n, by push_cast; ring⟩

theorem roundCoord_eq_self {q : ℚ} (h : gridAligned q) : roundCoord q = q := by
  obtain ⟨n, rfl⟩ := h
  unfold roundCoord
  rw [show (n : ℚ) / 10 ^ 6 * 10 ^ (6 : ℕ) = (n : ℚ) by
    field_simp]
  rw [round_intCast]

theorem generateTiles_covers (e : Extent) (step : ℚ)
    (hx : e.xmin < e.xmax) (hy : e.ymin < e.ymax) (hs : 0 < step)
    (hax : gridAligned e.xmin) (hay : gridAligned e.ymin)
    (has : gridAligned step) :
    ∀ px py : ℚ, inExtent e px py →
      ∃ b ∈ generateTiles e step, inTile b px py := by
  intro px py hp
  obtain ⟨hp1, hp2, hp3, hp4⟩ := hp
  obtain ⟨i, hilt, hi1, hi2⟩ := axis_cover e.xmin e.xmax step hx hs px hp1 hp2
  obtain ⟨j, hjlt, hj1, hj2⟩ := axis_cover e.ymin e.ymax step hy hs py hp3 hp4
  have hyv : gridAligned (e.ymin + (j : ℚ) * step) :=
    gridAligned_add hay (gridAligned_natMul j has)
  have hxv : gridAligned (e.xmin + (i : ℚ) * step) :=
    gridAligned_add hax (gridAligned_natMul i has)
  refine ⟨⟨roundCoord (e.ymin + (j : ℚ) * step),
    roundCoord (e.xmin + (i : ℚ) * step),
    roundCoord (e.ymin + (j : ℚ) * step + step),
    roundCoord (e.xmin + (i : ℚ) * step + step)⟩, ?_, ?_⟩
  · unfold generateTiles
    rw [List.mem_flatMap]
    refine ⟨e.ymin + (j : ℚ) * step, ?_, ?_⟩
    · rw [axisVals_eq_range _ _ _ hs]
      exact List.mem_map_of_mem _ (List.mem_range.mpr hjlt)
    · rw [List.mem_map]
      refine ⟨e.xmin + (i : ℚ) * step, ?_, rfl⟩
      rw [axisVals_eq_range _ _ _ hs]
      exact List.mem_map_of_mem _ (List.mem_range.mpr hilt)
  · dsimp only [inTile]
    refine ⟨?_, ?_, ?_, ?_⟩
    · rw [roundCoord_eq_self hxv]
      exact hi1
    · rw [roundCoord_eq_self (gridAligned_add hxv has)]
      linarith
    · rw [roundCoord_eq_self hyv]
      exact hj1
    · rw [roundCoord_eq_self (gridAligned_add hyv has)]
      linarith

/-- **C8, counterexample.** For the extent `west 0, south 6·10⁻⁷, east 1,
north 1` with step 1, `generateTiles` emits a single tile whose south edge is
`roundCoord(6·10⁻⁷) = 10⁻⁶ > 6·10⁻⁷`: the extent's own south-west corner lies
in no emitted tile, refuting "the union of the emitted tile bounding boxes
covers the entire extent" for arbitrary extents. -/
theorem claim_C8_counterexample :
    inExtent ⟨0, 6 / 10 ^ 7, 1, 1⟩ 0 (6 / 10 ^ 7) ∧
      generateTiles ⟨0, 6 / 10 ^ 7, 1, 1⟩ 1 =
        [⟨1 / 10 ^ 6, 0, 1000001 / 10 ^ 6, 1⟩] ∧
      ¬ inTile ⟨1 / 10 ^ 6, 0, 1000001 / 10 ^ 6, 1⟩ 0 (6 / 10 ^ 7) := by
  have hcy : (⌈((1 : ℚ) - 6 / 10 ^ 7) / 1⌉) = 1 := by
    rw [Int.ceil_eq_iff] ; norm_num
  have hcx : (⌈((1 : ℚ) - 0) / 1⌉) = 1 := by
    rw [Int.ceil_eq_iff] ; norm_num
  have hy : axisVals (6 / 10 ^ 7) 1 1 = [6 / 10 ^ 7] := by
    rw [axisVals_eq_range _ _ _ one_pos, hcy]
    rw [show List.range (Int.toNat 1) = [0] from rfl]
    norm_num
  have hx : axisVals 0 1 1 = [0] := by
    rw [axisVals_eq_range _ _ _ one_pos, hcx]
    rw [show List.range (Int.toNat 1) = [0] from rfl]
    norm_num
  refine ⟨?_, ?_, ?_⟩
  · unfold inExtent
    norm_num
  · unfold generateTiles
    dsimp only
    rw [hy, hx]
    simp only [List.flatMap_cons, List.flatMap_nil, List.map_cons, List.map_nil,
      List.append_nil]
    norm_num [roundCoord, round_eq]
  · unfold inTile
    norm_num

/-- **C8, amended.** For every extent with `west < east`, `south < north` and
every positive step, `generateTiles` returns exactly
`⌈(east−west)/step⌉ × ⌈(north−south)/step⌉` tiles; and provided west, south
and the step are integer multiples of the rounding precision `10⁻⁶` (so that
`roundCoord` is exact on every grid line), the union of the emitted tiles
covers the entire extent (the far row/column may extend beyond it). -/
theorem claim_C8_grid_count_cover (e : Extent) (step : ℚ)
    (hx : e.xmin < e.xmax) (hy : e.ymin < e.ymax) (hs : 0 < step) :
    (generateTiles e step).length =
      (⌈(e.xmax - e.xmin) / step⌉).toNat * (⌈(e.ymax - e.ymin) / step⌉).toNat ∧
    (gridAligned e.xmin → gridAligned e.ymin → gridAligned step →
      ∀ px py : ℚ, inExtent e px py →
        ∃ b ∈ generateTiles e step, inTile b px py) := by
  refine ⟨?_, fun hax hay has => generateTiles_covers e step hx hy hs hax hay has⟩
  rw [generateTiles_length e step hs, Nat.mul_comm]

/-- Witness for the amended C8 on the unit extent with step 1. -/
theorem claim_C8_grid_count_cover_witness :
    (generateTiles ⟨0, 0, 1, 1⟩ 1).length =
      (⌈((1 : ℚ) - 0) / 1⌉).toNat * (⌈((1 : ℚ) - 0) / 1⌉).toNat :=
  (claim_C8_grid_count_cover ⟨0, 0, 1, 1⟩ 1 (by norm_num) (by norm_num)
    one_pos).1

/-- **C9, counterexample.** With the unit extent and step 2 (≥ both spans),
`generateTiles` emits one tile, not the empty sequence the claim requires. -/
theorem claim_C9_counterexample :
    (1 : ℚ) - 0 ≤ 2 ∧
      generateTiles ⟨0, 0, 1, 1⟩ 2 = [⟨0, 0, 2, 2⟩] ∧
      generateTiles ⟨0, 0, 1, 1⟩ 2 ≠ [] := by
  have hc : (⌈((1 : ℚ) - 0) / 2⌉) = 1 := by
    rw [Int.ceil_eq_iff] ; norm_num
  have ha : axisVals 0 1 2 = [0] := by
    rw [axisVals_eq_range _ _ _ (by norm_num : (0 : ℚ) < 2), hc]
    rw [show List.range (Int.toNat 1) = [0] from rfl]
    norm_num
  have hg : generateTiles ⟨0, 0, 1, 1⟩ 2 = [⟨0, 0, 2, 2⟩] := by
    unfold generateTiles
    dsimp only
    rw [ha]
    simp only [List.flatMap_cons, List.flatMap_nil, List.map_cons, List.map_nil,
      List.append_nil]
    norm_num [roundCoord, round_eq]
  exact ⟨by norm_num, hg, by rw [hg]; simp⟩

/-- **C9, amended.** For every extent with `west < east`, `south < north`: if
the step is at least the extent's span in *both* axes, `generateTiles` emits
exactly one tile — never the empty sequence. -/
theorem claim_C9_single_tile (e : Extent) (step : ℚ)
    (hx : e.xmin < e.xmax) (hy : e.ymin < e.ymax) (hs : 0 < step)
    (hsx : e.xmax - e.xmin ≤ step) (hsy : e.ymax - e.ymin ≤ step) :
    (generateTiles e step).length = 1 := by
  rw [generateTiles_length e step hs]
  have h1 : (⌈(e.ymax - e.ymin) / step⌉) = 1 := by
    rw [Int.ceil_eq_iff]
    push_cast
    constructor
    · have := div_pos (by linarith : (0 : ℚ) < e.ymax - e.ymin) hs
      linarith
    · exact (div_le_one hs).mpr hsy
  have h2 : (⌈(e.xmax - e.xmin) / step⌉) = 1 := by
    rw [Int.ceil_eq_iff]
    push_cast
    constructor
    · have := div_pos (by linarith : (0 : ℚ) < e.xmax - e.xmin) hs
      linarith
    · exact (div_le_one hs).mpr hsx
  rw [h1, h2]
  rfl

/-- Witness for the amended C9: the unit extent with step 2 yields exactly one
tile. -/
theorem claim_C9_single_tile_witness :
    (generateTiles ⟨0, 0, 1, 1⟩ 2).length = 1 :=
  claim_C9_single_tile ⟨0, 0, 1, 1⟩ 2 (by norm_num) (by norm_num)
    (by norm_num) (by norm_num) (by norm_num)
